import Mathlib

/-!
# Formsy form-state and validation engine: a shallow embedding

The repository ships its test suite and type declarations for a form
coordinator (dynamic field registration, model aggregation with
dot-notation flattening, per-field validation, aggregate validity and
changed-state tracking, external error injection).  The coordinator
implementation itself is not part of the shipped sources, so the
definitions below are modelled from the specification, with the shipped
test suite (src/src/interfaces.ts) fixing the observable behaviour where
it speaks.
-/

namespace Formsy

/-- Modelled from the spec: a field value is an arbitrary dynamic value;
`undef` is the JavaScript `undefined`, meaning "no value supplied". -/
inductive Value where
  | undef : Value
  | bool : Bool → Value
  | str : String → Value
  | num : Int → Value
deriving DecidableEq

/-- Modelled from the spec: the flat Aggregate Model, a name-to-value
mapping with one entry per unique name. -/
abbrev FlatModel := List (String × Value)

/-- Set a key in an association list: overwrite the existing entry for the
key when present (latest write wins), else append. -/
def setEntry {α : Type} (l : List (String × α)) (k : String) (v : α) :
    List (String × α) :=
  if l.any (fun p => p.1 == k) then
    l.map (fun p => if p.1 == k then (k, v) else p)
  else l ++ [(k, v)]

/-- Lookup a key in an association list. -/
def lookupEntry {α : Type} (l : List (String × α)) (k : String) : Option α :=
  (l.find? (fun p => p.1 == k)).map Prod.snd

/-- Modelled from the spec: a nested (JSON-like) model value, produced by
the dot-notation transformation of the flat model. -/
inductive JValue where
  | prim : Value → JValue
  | obj : List (String × JValue) → JValue

/-- Split a field name into its dot-separated path segments
(auxiliary recursion over the characters). -/
def splitNameAux : List Char → List Char → List String
  | [], cur => [String.mk cur.reverse]
  | c :: rest, cur =>
    if c = '.' then String.mk cur.reverse :: splitNameAux rest []
    else splitNameAux rest (c :: cur)

/-- Modelled from the spec: split a field name on `.` into path segments. -/
def splitName (s : String) : List String :=
  splitNameAux s.data []

/-- Modelled from the spec: write one value at a dot-path into a nested
object; intermediate levels are created or merged when they already hold a
nested object, and the most recent write wins otherwise. -/
def setNested : List (String × JValue) → List String → Value →
    List (String × JValue)
  | o, [], _ => o
  | o, [k], v => setEntry o k (JValue.prim v)
  | o, k :: k2 :: rest, v =>
    let sub := match lookupEntry o k with
      | some (JValue.obj s) => s
      | _ => []
    setEntry o k (JValue.obj (setNested sub (k2 :: rest) v))

/-- Modelled from the spec: build the flat Aggregate Model from the ordered
field table; later registrants override earlier ones with the same name. -/
def buildFlat (fields : List (String × Value)) : FlatModel :=
  fields.foldl (fun acc p => setEntry acc p.1 p.2) []

/-- Modelled from the spec: build the nested Aggregate Model from the flat
one by splitting every key on `.`. -/
def buildNested (flat : FlatModel) : JValue :=
  JValue.obj (flat.foldl (fun acc p => setNested acc (splitName p.1) p.2) [])

/-- The flat model reinterpreted as a nested value whose keys are kept as
flat (undotted) keys; used to compare against the dot-notation transform. -/
def flatToJ (flat : FlatModel) : JValue :=
  JValue.obj (flat.map (fun p => (p.1, JValue.prim p.2)))

/-- Modelled from the spec: a validation rule predicate returns `true`
(valid), `false` (invalid, default message) or a string (invalid, with that
message). -/
inductive RuleResult where
  | pass : RuleResult
  | fail : RuleResult
  | failWith : String → RuleResult

/-- Modelled from the spec: a rule predicate takes the current aggregate
model, the field's own value and a rule-specific extra argument. -/
abbrev Rule := FlatModel → Value → Value → RuleResult

/-- Modelled from the spec: the process-wide named-rule table of the
ValidationRuleRegistry. -/
abbrev Registry := List (String × Rule)

/-- Modelled from the spec: `addRule` registers or overwrites a named rule;
last registration wins, no error on overwrite. -/
def addRule (reg : Registry) (name : String) (r : Rule) : Registry :=
  setEntry reg name r

/-- Modelled from the spec: a validation spec is a single rule name, a list
of rule names, a rule-name-to-argument mapping, or an inline predicate. -/
inductive ValidationSpec where
  | singleRule : String → ValidationSpec
  | ruleList : List String → ValidationSpec
  | ruleArgMap : List (String × Value) → ValidationSpec
  | inlinePredicate : Rule → ValidationSpec

/-- Modelled from the spec: the result of evaluating a validation spec for
one field. -/
structure ValidDescriptor where
  isValid : Bool
  message : Option String

/-- Interpret one rule outcome as a descriptor. -/
def descriptorOf : RuleResult → ValidDescriptor
  | RuleResult.pass => { isValid := true, message := none }
  | RuleResult.fail => { isValid := false, message := none }
  | RuleResult.failWith m => { isValid := false, message := some m }

/-- Modelled from the spec: evaluate a list of (rule name, argument) pairs
with AND semantics, short-circuiting on the first failure; an unresolvable
rule name is a configuration error surfaced to the host. -/
def evalRulePairs (reg : Registry) (model : FlatModel) (value : Value) :
    List (String × Value) → Except String ValidDescriptor
  | [] => Except.ok { isValid := true, message := none }
  | (n, arg) :: rest =>
    match lookupEntry reg n with
    | none => Except.error ("validation rule not found: " ++ n)
    | some rule =>
      match rule model value arg with
      | RuleResult.pass => evalRulePairs reg model value rest
      | r => Except.ok (descriptorOf r)

/-- Modelled from the spec: evaluate a validation spec against the current
model and the field's value; plain rule names receive `true` as the extra
argument. -/
def evaluateSpec (reg : Registry) (model : FlatModel) (value : Value) :
    ValidationSpec → Except String ValidDescriptor
  | ValidationSpec.singleRule n => evalRulePairs reg model value [(n, Value.bool true)]
  | ValidationSpec.ruleList ns =>
      evalRulePairs reg model value (ns.map (fun n => (n, Value.bool true)))
  | ValidationSpec.ruleArgMap ps => evalRulePairs reg model value ps
  | ValidationSpec.inlinePredicate f =>
      Except.ok (descriptorOf (f model value (Value.bool true)))

/-- Modelled from the spec: one Field Record of the Field Registration
Table. -/
structure FieldRecord where
  id : Nat
  name : String
  value : Value
  pristineValue : Value
  validations : Option ValidationSpec
  requiredValidations : Option ValidationSpec
  externalError : Option String

/-- Modelled from the spec: the `(isValid, error, isRequired)` triple
computed for a field on each validation pass. -/
structure FieldState where
  isValid : Bool
  error : Option String
  isRequired : Bool

/-- Modelled from the spec: `isRequired` is computed each validation pass
from `requiredValidations` evaluated against the current model; absent a
required spec the field is not required. -/
def computeIsRequired (reg : Registry) (model : FlatModel) (value : Value) :
    Option ValidationSpec → Except String Bool
  | none => Except.ok false
  | some s =>
    match evaluateSpec reg model value s with
    | Except.error e => Except.error e
    | Except.ok d => Except.ok d.isValid

/-- Modelled from the spec: run one field's internal validation pass.
Required-ness gates emptiness checks: when the value is `undefined` the
field is invalid exactly when it is required, regardless of any other
configured validation rules; otherwise the configured validation spec
decides. -/
def runValidation (reg : Registry) (model : FlatModel) (f : FieldRecord) :
    Except String FieldState :=
  match computeIsRequired reg model f.value f.requiredValidations with
  | Except.error e => Except.error e
  | Except.ok req =>
    if f.value = Value.undef then
      Except.ok { isValid := !req, error := none, isRequired := req }
    else
      match f.validations with
      | none => Except.ok { isValid := true, error := none, isRequired := req }
      | some s =>
        match evaluateSpec reg model f.value s with
        | Except.error e => Except.error e
        | Except.ok d =>
          Except.ok { isValid := d.isValid,
                      error := if d.isValid then none else some (d.message.getD "invalid"),
                      isRequired := req }

/-- The flat Aggregate Model of a field table. -/
def modelOf (fields : List FieldRecord) : FlatModel :=
  buildFlat (fields.map (fun f => (f.name, f.value)))

/-- Modelled from the spec: every field's validator re-runs against the
current model; a field contributes `true` exactly when it carries no
externally injected error and its internal validation result is valid. -/
def fieldsAllValid (reg : Registry) (model : FlatModel) :
    List FieldRecord → Except String Bool
  | [] => Except.ok true
  | f :: rest =>
    match runValidation reg model f with
    | Except.error e => Except.error e
    | Except.ok st =>
      match fieldsAllValid reg model rest with
      | Except.error e => Except.error e
      | Except.ok restOk =>
        Except.ok (f.externalError.isNone && st.isValid && restOk)

/-- Modelled from the spec: the form configuration recognised by the
coordinator. -/
structure FormConfig where
  validationErrors : List (String × String)
  preventExternalInvalidation : Bool
  disabled : Bool
  mapping : Option (FlatModel → JValue)

/-- Modelled from the spec: aggregate `isValid` is the AND over all Field
Records of (no externalError present) AND (internal validation result is
valid), AND-ed with (the externally supplied validationErrors map is empty
OR preventExternalInvalidation is true). -/
def formIsValidE (reg : Registry) (cfg : FormConfig) (fields : List FieldRecord) :
    Except String Bool :=
  match fieldsAllValid reg (modelOf fields) fields with
  | Except.error e => Except.error e
  | Except.ok ok =>
    Except.ok (ok && (cfg.validationErrors.isEmpty || cfg.preventExternalInvalidation))

/-- Modelled from the spec: the Form State owned by the Form Coordinator,
together with its configuration, rule registry and Field Registration
Table. -/
structure Form where
  config : FormConfig
  registry : Registry
  fields : List FieldRecord
  isValidState : Bool
  isSubmitted : Bool

/-- Modelled from the spec: changed-state is tracked by value equality of
each field's current value against its pristine snapshot. -/
def isChangedForm (fields : List FieldRecord) : Bool :=
  fields.any (fun f => !(f.value == f.pristineValue))

/-- Modelled from the spec: `isPristine` is true iff no field's value
differs from its pristine value and no submit has occurred. -/
def isPristineForm (form : Form) : Bool :=
  !form.isSubmitted && !isChangedForm form.fields

/-- Modelled from the spec and the shipped tests: the model handed to
`onChange` and the submit callbacks is the flat model transformed by the
configured `mapping` when present, else by the dot-notation nesting
transform. -/
def mappedModel (cfg : FormConfig) (flat : FlatModel) : JValue :=
  match cfg.mapping with
  | some m => m flat
  | none => buildNested flat

/-- Modelled from the spec: the change and validity callbacks the
coordinator fires toward the host application. -/
inductive Notification where
  | onChange : JValue → Bool → Notification
  | onValid : Notification
  | onInvalid : Notification
  | onValidSubmit : JValue → Notification
  | onInvalidSubmit : JValue → Notification

/-- Whether a notification is an `onChange` call. -/
def isOnChange : Notification → Bool
  | Notification.onChange _ _ => true
  | _ => false

/-- Modelled from the spec: the settled cascade — recompute the model,
re-run every field's validator, recompute aggregate state, then notify:
`onChange` fires iff the flat model differs from the one before the
mutation (carrying the mapped model and the changed flag), and
`onValid`/`onInvalid` fire when aggregate validity flips. -/
def cascade (form : Form) (prevFlat : FlatModel) (prevValid : Bool) :
    Except String (Form × List Notification) :=
  match formIsValidE form.registry form.config form.fields with
  | Except.error e => Except.error e
  | Except.ok valid =>
    let flat := modelOf form.fields
    let changeNs : List Notification :=
      if flat = prevFlat then []
      else [Notification.onChange (mappedModel form.config flat) (isChangedForm form.fields)]
    let validNs : List Notification :=
      if valid = prevValid then []
      else if valid then [Notification.onValid] else [Notification.onInvalid]
    Except.ok ({ form with isValidState := valid }, changeNs ++ validNs)

/-- Modelled from the spec: the external events driving the coordinator's
state machine.  `updateValues`/`updateErrors` are the imperative
`updateInputsWithValue`/`updateInputsWithError` operations. -/
inductive Event where
  | mountField : FieldRecord → Event
  | unmountField : Nat → Event
  | changeValue : Nat → Value → Event
  | reset : Option (List (String × Value)) → Event
  | setValidationErrors : List (String × String) → Event
  | updateValues : List (String × Value) → Bool → Event
  | updateErrors : List (String × String) → Bool → Event
  | submit : Event

/-- Modelled from the spec: process one external event: apply the mutation,
then run the settled cascade.  `updateValues`/`updateErrors` referencing a
name with no matching registered field report an explicit, catchable
addressing error instead of mutating anything. -/
def step (form : Form) (e : Event) : Except String (Form × List Notification) :=
  let prevFlat := modelOf form.fields
  let prevValid := form.isValidState
  match e with
  | Event.mountField f =>
    cascade { form with fields := form.fields ++ [f] } prevFlat prevValid
  | Event.unmountField fid =>
    cascade { form with fields := form.fields.filter (fun f => !(f.id == fid)) }
      prevFlat prevValid
  | Event.changeValue fid v =>
    cascade { form with
        fields := form.fields.map
          (fun f => if f.id == fid then { f with value := v } else f) }
      prevFlat prevValid
  | Event.reset seed =>
    let newFields := form.fields.map (fun f =>
      { f with value := match seed with
                        | some s => (lookupEntry s f.name).getD f.pristineValue
                        | none => f.pristineValue,
               externalError := none })
    cascade { form with fields := newFields, isSubmitted := false } prevFlat prevValid
  | Event.setValidationErrors errs =>
    cascade { form with config := { form.config with validationErrors := errs } }
      prevFlat prevValid
  | Event.updateValues values _shouldValidate =>
    match values.find? (fun p => !(form.fields.any (fun f => f.name == p.1))) with
    | some p =>
      Except.error ("updateInputsWithValue: no field registered with name " ++ p.1)
    | none =>
      cascade { form with fields := form.fields.map (fun f =>
          match lookupEntry values f.name with
          | some v => { f with value := v }
          | none => f) }
        prevFlat prevValid
  | Event.updateErrors errors _shouldInvalidate =>
    match errors.find? (fun p => !(form.fields.any (fun f => f.name == p.1))) with
    | some p =>
      Except.error ("updateInputsWithError: no field registered with name " ++ p.1)
    | none =>
      cascade { form with fields := form.fields.map (fun f =>
          match lookupEntry errors f.name with
          | some msg => { f with externalError := some msg }
          | none => f) }
        prevFlat prevValid
  | Event.submit =>
    match cascade { form with isSubmitted := true } prevFlat prevValid with
    | Except.error e => Except.error e
    | Except.ok (form2, ns) =>
      Except.ok (form2,
        (if form.isValidState then
           [Notification.onValidSubmit (mappedModel form.config prevFlat)]
         else
           [Notification.onInvalidSubmit (mappedModel form.config prevFlat)]) ++ ns)

/-- Modelled from the spec and the shipped tests: mounting a form registers
its default fields and runs one full validation pass; the initial pass
fires no `onChange` (the tests mount forms with and without fields and
observe no `onChange` call). -/
def mountForm (cfg : FormConfig) (reg : Registry) (fields : List FieldRecord) :
    Except String (Form × List Notification) :=
  match formIsValidE reg cfg fields with
  | Except.error e => Except.error e
  | Except.ok valid =>
    Except.ok ({ config := cfg, registry := reg, fields := fields,
                 isValidState := valid, isSubmitted := false }, [])

/-! ## Concrete forms and fields used by the claim witnesses -/

/-- An empty default configuration shared by concrete witness forms. -/
def emptyCfg : FormConfig :=
  { validationErrors := [], preventExternalInvalidation := false,
    disabled := false, mapping := none }

/-- A configuration with `preventExternalInvalidation` set, used to witness
C4. -/
def preventCfg : FormConfig :=
  { validationErrors := [], preventExternalInvalidation := true,
    disabled := false, mapping := none }

/-- A field with an always-failing validation rule, no required spec and an
`undefined` value, used to witness C7. -/
def claim7Field : FieldRecord :=
  { id := 1, name := "foo", value := Value.undef, pristineValue := Value.undef,
    validations := some (ValidationSpec.inlinePredicate (fun _ _ _ => RuleResult.fail)),
    requiredValidations := none, externalError := none }

/-- A field named `foo` with no validations, used by several witnesses. -/
def fooField : FieldRecord :=
  { id := 1, name := "foo", value := Value.str "", pristineValue := Value.str "",
    validations := none, requiredValidations := none, externalError := none }

def claim3Field : FieldRecord :=
  { id := 1, name := "parent.child", value := Value.str "test",
    pristineValue := Value.str "test", validations := none,
    requiredValidations := none, externalError := none }

def claim9Field : FieldRecord :=
  { id := 1, name := "foo", value := Value.bool false,
    pristineValue := Value.bool false, validations := none,
    requiredValidations := none, externalError := none }

def claim4Form : Form :=
  { config := preventCfg, registry := [], fields := [],
    isValidState := true, isSubmitted := false }

def claim4Form2 : Form :=
  { claim4Form with config := { preventCfg with validationErrors := [("foo", "bar")] } }

def claim5Form : Form :=
  { config := emptyCfg, registry := [], fields := [fooField],
    isValidState := true, isSubmitted := false }

def claim5Form2 : Form :=
  { claim5Form with
    fields := [{ fooField with externalError := some "bar" }],
    isValidState := false }

def claim10Form : Form :=
  { config := emptyCfg, registry := [],
    fields := [{ id := 1, name := "foo", value := Value.bool true,
                 pristineValue := Value.bool true, validations := none,
                 requiredValidations := none, externalError := none },
               { id := 2, name := "bar", value := Value.bool true,
                 pristineValue := Value.bool true, validations := none,
                 requiredValidations := none, externalError := none }],
    isValidState := true, isSubmitted := false }

def claim10Form2 : Form :=
  { claim10Form with
    fields := [{ id := 1, name := "foo", value := Value.bool false,
                 pristineValue := Value.bool true, validations := none,
                 requiredValidations := none, externalError := none },
               { id := 2, name := "bar", value := Value.bool true,
                 pristineValue := Value.bool true, validations := none,
                 requiredValidations := none, externalError := none }] }

def claim3EmptyForm : Form :=
  { config := emptyCfg, registry := [], fields := [],
    isValidState := true, isSubmitted := false }

def claim3Form : Form := { claim3EmptyForm with fields := [claim3Field] }

def claim3Nested : JValue :=
  JValue.obj [("parent", JValue.obj [("child", JValue.prim (Value.str "test"))])]

def claim3Form2 : Form :=
  { claim3EmptyForm with fields := [{ claim3Field with value := Value.str "x" }] }

def claim3Nested2 : JValue :=
  JValue.obj [("parent", JValue.obj [("child", JValue.prim (Value.str "x"))])]

def claim8Form : Form :=
  { config := emptyCfg, registry := [],
    fields := [{ id := 1, name := "one", value := Value.str "foo",
                 pristineValue := Value.str "foo", validations := none,
                 requiredValidations := none, externalError := none }],
    isValidState := true, isSubmitted := false }

def claim8Form2 : Form :=
  { claim8Form with
    fields := [{ id := 1, name := "one", value := Value.str "bar",
                 pristineValue := Value.str "foo", validations := none,
                 requiredValidations := none, externalError := none }] }

def claim6Form : Form :=
  { config := emptyCfg, registry := [],
    fields := [{ id := 1, name := "foo", value := Value.bool false,
                 pristineValue := Value.bool true, validations := none,
                 requiredValidations := none, externalError := none }],
    isValidState := true, isSubmitted := false }

def claim6Form2 : Form :=
  { claim6Form with
    fields := [{ id := 1, name := "foo", value := Value.bool true,
                 pristineValue := Value.bool true, validations := none,
                 requiredValidations := none, externalError := none }] }

def claim6Form3 : Form :=
  { claim6Form with
    fields := [{ id := 1, name := "foo", value := Value.str "",
                 pristineValue := Value.bool true, validations := none,
                 requiredValidations := none, externalError := none }] }

def claim9Form : Form :=
  { config := emptyCfg, registry := [],
    fields := [{ id := 1, name := "foo", value := Value.bool false,
                 pristineValue := Value.bool false, validations := none,
                 requiredValidations := none, externalError := none }],
    isValidState := true, isSubmitted := false }

/-! ## Association-list and fold lemmas -/

theorem setEntry_of_not_mem {α : Type} (l : List (String × α)) (k : String) (v : α)
    (h : k ∉ l.map Prod.fst) : setEntry l k v = l ++ [(k, v)] := by
  have hany : l.any (fun p => p.1 == k) = false := by
    simp only [List.any_eq_false, beq_iff_eq]
    intro p hp hk
    exact h (hk ▸ List.mem_map_of_mem Prod.fst hp)
  simp [setEntry, hany]

theorem foldl_setEntry_append {α : Type} (l : List (String × α)) :
    ∀ acc, (l.map Prod.fst).Nodup →
      (∀ k ∈ l.map Prod.fst, k ∉ acc.map Prod.fst) →
      l.foldl (fun a p => setEntry a p.1 p.2) acc = acc ++ l := by
  induction l with
  | nil => intro acc _ _; simp
  | cons p rest ih =>
    intro acc hn hd
    simp only [List.map_cons] at hn hd
    simp only [List.foldl_cons]
    rw [setEntry_of_not_mem acc p.1 p.2 (hd p.1 (by simp))]
    have hrest := ih (acc ++ [(p.1, p.2)]) hn.of_cons (by
      intro k hk
      simp only [List.map_append, List.mem_append, List.map_cons, List.map_nil,
        List.mem_singleton]
      rintro (hka | hke)
      · exact hd k (by simp [hk]) hka
      · exact (List.nodup_cons.mp hn).1 (hke ▸ hk))
    rw [hrest]
    simp

theorem modelOf_of_nodup (fields : List FieldRecord)
    (h : (fields.map FieldRecord.name).Nodup) :
    modelOf fields = fields.map (fun f => (f.name, f.value)) := by
  unfold modelOf buildFlat
  rw [foldl_setEntry_append]
  · simp
  · simpa [List.map_map, Function.comp] using h
  · simp

theorem lookup_pairs_of_mem (fields : List FieldRecord) (f : FieldRecord)
    (hn : (fields.map FieldRecord.name).Nodup) (hf : f ∈ fields) :
    lookupEntry (fields.map (fun g => (g.name, g.value))) f.name = some f.value := by
  induction fields with
  | nil => cases hf
  | cons g rest ih =>
    simp only [List.map_cons, List.nodup_cons] at hn
    rcases List.mem_cons.mp hf with rfl | hmem
    · simp [lookupEntry, List.find?_cons]
    · have hne : (g.name == f.name) = false := by
        simp only [beq_eq_false_iff_ne, ne_eq]
        intro he
        exact hn.1 (he ▸ List.mem_map_of_mem FieldRecord.name hmem)
      simp only [lookupEntry, List.map_cons, List.find?_cons, hne]
      exact ih hn.2 hmem

theorem lookupEntry_eq_none_of_not_mem {α : Type} (l : List (String × α)) (k : String)
    (h : k ∉ l.map Prod.fst) : lookupEntry l k = none := by
  unfold lookupEntry
  rw [List.find?_eq_none.mpr]
  · rfl
  · intro p hp
    simp only [beq_iff_eq]
    intro he
    exact h (he ▸ List.mem_map_of_mem Prod.fst hp)

/-! ## Validity characterization -/

theorem fieldsAllValid_ok_iff (reg : Registry) (model : FlatModel) :
    ∀ (fields : List FieldRecord) (b : Bool),
      fieldsAllValid reg model fields = Except.ok b →
      (b = true ↔ ∀ f ∈ fields, f.externalError = none ∧
        ∃ st, runValidation reg model f = Except.ok st ∧ st.isValid = true) := by
  intro fields
  induction fields with
  | nil =>
    intro b h
    simp only [fieldsAllValid, Except.ok.injEq] at h
    subst h
    simp
  | cons f rest ih =>
    intro b h
    unfold fieldsAllValid at h
    cases hrv : runValidation reg model f with
    | error e => rw [hrv] at h; cases h
    | ok st =>
      rw [hrv] at h
      cases hfa : fieldsAllValid reg model rest with
      | error e => rw [hfa] at h; cases h
      | ok restOk =>
        rw [hfa] at h
        simp only [Except.ok.injEq] at h
        subst h
        have hrest := ih restOk hfa
        constructor
        · intro hb
          rw [Bool.and_eq_true, Bool.and_eq_true] at hb
          obtain ⟨⟨he, hv⟩, hro⟩ := hb
          intro g hg
          rcases List.mem_cons.mp hg with rfl | hmem
          · exact ⟨Option.isNone_iff_eq_none.mp he, st, hrv, hv⟩
          · exact hrest.mp hro g hmem
        · intro hall
          rw [Bool.and_eq_true, Bool.and_eq_true]
          obtain ⟨he, st2, hrv2, hv2⟩ := hall f (List.mem_cons_self f rest)
          rw [hrv] at hrv2
          refine ⟨⟨by simp [he], ?_⟩, hrest.mpr (fun g hg => hall g (List.mem_cons_of_mem f hg))⟩
          cases hrv2
          exact hv2

theorem formIsValidE_ok_iff (reg : Registry) (cfg : FormConfig)
    (fields : List FieldRecord) (b : Bool)
    (h : formIsValidE reg cfg fields = Except.ok b) :
    b = true ↔
      ((∀ f ∈ fields, f.externalError = none ∧
          ∃ st, runValidation reg (modelOf fields) f = Except.ok st ∧ st.isValid = true) ∧
        (cfg.validationErrors = [] ∨ cfg.preventExternalInvalidation = true)) := by
  unfold formIsValidE at h
  cases hfa : fieldsAllValid reg (modelOf fields) fields with
  | error e => rw [hfa] at h; cases h
  | ok ok0 =>
    rw [hfa] at h
    simp only [Except.ok.injEq] at h
    subst h
    rw [Bool.and_eq_true, Bool.or_eq_true]
    rw [fieldsAllValid_ok_iff reg (modelOf fields) fields ok0 hfa]
    simp [List.isEmpty_iff]

/-! ## Cascade characterization -/

theorem cascade_ok_spec (form : Form) (prevFlat : FlatModel) (prevValid : Bool)
    (form' : Form) (ns : List Notification)
    (h : cascade form prevFlat prevValid = Except.ok (form', ns)) :
    formIsValidE form.registry form.config form.fields = Except.ok form'.isValidState ∧
    form'.config = form.config ∧ form'.registry = form.registry ∧
    form'.fields = form.fields ∧ form'.isSubmitted = form.isSubmitted ∧
    ns = (if modelOf form.fields = prevFlat then []
          else [Notification.onChange (mappedModel form.config (modelOf form.fields))
                 (isChangedForm form.fields)]) ++
         (if form'.isValidState = prevValid then []
          else if form'.isValidState = true then [Notification.onValid]
          else [Notification.onInvalid]) := by
  unfold cascade at h
  cases hv : formIsValidE form.registry form.config form.fields with
  | error e => rw [hv] at h; cases h
  | ok valid =>
    rw [hv] at h
    simp only [Except.ok.injEq, Prod.mk.injEq] at h
    obtain ⟨h1, h2⟩ := h
    subst h1
    subst h2
    exact ⟨rfl, rfl, rfl, rfl, rfl, rfl⟩

theorem cascade_onChange_spec (form : Form) (prevFlat : FlatModel) (prevValid : Bool)
    (form' : Form) (ns : List Notification)
    (h : cascade form prevFlat prevValid = Except.ok (form', ns)) :
    (ns.filter isOnChange).length = (if modelOf form.fields = prevFlat then 0 else 1) ∧
    (∀ m b, Notification.onChange m b ∈ ns →
      m = mappedModel form.config (modelOf form.fields) ∧ b = isChangedForm form.fields) := by
  obtain ⟨_, _, _, _, _, hns⟩ := cascade_ok_spec form prevFlat prevValid form' ns h
  subst hns
  constructor
  · by_cases hc : modelOf form.fields = prevFlat <;>
      by_cases hv : form'.isValidState = prevValid <;>
      by_cases hv2 : form'.isValidState = true <;>
      simp [hc, hv, hv2, isOnChange]
  · intro m b hm
    rcases List.mem_append.mp hm with hA | hB
    · by_cases hc : modelOf form.fields = prevFlat
      · rw [if_pos hc] at hA
        cases hA
      · rw [if_neg hc] at hA
        have he := List.mem_singleton.mp hA
        cases he
        exact ⟨rfl, rfl⟩
    · by_cases hv : form'.isValidState = prevValid
      · rw [if_pos hv] at hB
        cases hB
      · rw [if_neg hv] at hB
        by_cases hv2 : form'.isValidState = true <;> simp [hv2] at hB

theorem isChangedForm_eq_false_iff (fields : List FieldRecord) :
    isChangedForm fields = false ↔ ∀ f ∈ fields, f.value = f.pristineValue := by
  unfold isChangedForm
  rw [List.any_eq_false]
  constructor
  · intro h f hf
    simpa using h f hf
  · intro h f hf
    simpa using h f hf

/-! ## Claim theorems -/

/-- **C7**: in every validation pass, a field whose value is `undefined` is
treated as invalid when its computed `isRequired` is true, even absent
other failing rules, and as valid when `isRequired` is false, regardless of
any other configured validation rules. -/
theorem claim7_required_gates_undefined (reg : Registry) (model : FlatModel)
    (f : FieldRecord) (st : FieldState)
    (h : runValidation reg model f = Except.ok st) (hu : f.value = Value.undef) :
    (st.isRequired = true → st.isValid = false) ∧
    (st.isRequired = false → st.isValid = true) := by
  unfold runValidation at h
  cases hr : computeIsRequired reg model f.value f.requiredValidations with
  | error e => rw [hr] at h; cases h
  | ok req =>
    rw [hr] at h
    dsimp only at h
    rw [if_pos hu] at h
    simp only [Except.ok.injEq] at h
    subst h
    constructor <;> intro hreq <;> simp at hreq <;> simp [hreq]

theorem claim7_witness :
    runValidation [] [] claim7Field =
      Except.ok { isValid := true, error := none, isRequired := false } ∧
    claim7Field.value = Value.undef ∧
    ((({ isValid := true, error := none, isRequired := false } : FieldState).isRequired = true →
        ({ isValid := true, error := none, isRequired := false } : FieldState).isValid = false) ∧
      (({ isValid := true, error := none, isRequired := false } : FieldState).isRequired = false →
        ({ isValid := true, error := none, isRequired := false } : FieldState).isValid = true)) :=
  ⟨rfl, rfl, claim7_required_gates_undefined [] [] claim7Field _ rfl rfl⟩

/-- **C1**: aggregate `isValid` equals the AND over all Field Records of
(no externalError present) AND (internal validation result is valid),
AND-ed with (the externally supplied validationErrors map is empty OR
preventExternalInvalidation is true); mounting a field that fails its
validation makes `isValid` false, and supplying a non-empty
validationErrors map without preventExternalInvalidation makes `isValid`
false. -/
theorem claim1_aggregate_isValid_formula
    (reg : Registry) (cfg : FormConfig) (fields : List FieldRecord) (b : Bool)
    (h : formIsValidE reg cfg fields = Except.ok b) :
    (b = true ↔
      ((∀ f ∈ fields, f.externalError = none ∧
          ∃ st, runValidation reg (modelOf fields) f = Except.ok st ∧ st.isValid = true) ∧
        (cfg.validationErrors = [] ∨ cfg.preventExternalInvalidation = true))) ∧
    (∀ (form form' : Form) (f : FieldRecord) (ns : List Notification) (st : FieldState),
      step form (Event.mountField f) = Except.ok (form', ns) →
      runValidation form.registry (modelOf form'.fields) f = Except.ok st →
      st.isValid = false →
      form'.isValidState = false) ∧
    (∀ (form form' : Form) (errs : List (String × String)) (ns : List Notification),
      form.config.preventExternalInvalidation = false →
      errs ≠ [] →
      step form (Event.setValidationErrors errs) = Except.ok (form', ns) →
      form'.isValidState = false) := by
  refine ⟨formIsValidE_ok_iff reg cfg fields b h, ?_, ?_⟩
  · intro form form' f ns st hs hrv hvfalse
    simp only [step] at hs
    obtain ⟨hval, hcfg, hreg, hfields, _, _⟩ := cascade_ok_spec _ _ _ _ _ hs
    have hiff := formIsValidE_ok_iff _ _ _ _ hval
    by_contra hne
    have htrue : form'.isValidState = true := by
      cases hb : form'.isValidState
      · exact absurd hb hne
      · rfl
    have hall := (hiff.mp htrue).1
    obtain ⟨_, st2, hrv2, hv2⟩ := hall f (by simp)
    rw [hfields] at hrv
    rw [hrv] at hrv2
    cases hrv2
    rw [hv2] at hvfalse
    cases hvfalse
  · intro form form' errs ns hprev hne hs
    simp only [step] at hs
    obtain ⟨hval, _, _, _, _, _⟩ := cascade_ok_spec _ _ _ _ _ hs
    have hiff := formIsValidE_ok_iff _ _ _ _ hval
    by_contra hnef
    have htrue : form'.isValidState = true := by
      cases hb : form'.isValidState
      · exact absurd hb hnef
      · rfl
    rcases (hiff.mp htrue).2 with hemp | hp
    · exact hne (by simpa using hemp)
    · simp only at hp
      rw [hprev] at hp
      cases hp

theorem claim1_witness :
    formIsValidE [] emptyCfg [] = Except.ok true ∧
    ((true = true ↔
        ((∀ f ∈ ([] : List FieldRecord), f.externalError = none ∧
            ∃ st, runValidation [] (modelOf []) f = Except.ok st ∧ st.isValid = true) ∧
          (emptyCfg.validationErrors = [] ∨ emptyCfg.preventExternalInvalidation = true))) ∧
      (∀ (form form' : Form) (f : FieldRecord) (ns : List Notification) (st : FieldState),
        step form (Event.mountField f) = Except.ok (form', ns) →
        runValidation form.registry (modelOf form'.fields) f = Except.ok st →
        st.isValid = false →
        form'.isValidState = false) ∧
      (∀ (form form' : Form) (errs : List (String × String)) (ns : List Notification),
        form.config.preventExternalInvalidation = false →
        errs ≠ [] →
        step form (Event.setValidationErrors errs) = Except.ok (form', ns) →
        form'.isValidState = false)) :=
  ⟨rfl, claim1_aggregate_isValid_formula [] emptyCfg [] true rfl⟩

/-- **C4**: with `preventExternalInvalidation` configured true, supplying a
non-empty `validationErrors` configuration map does not flip aggregate
`isValid` to false. -/
theorem claim4_prevent_external_invalidation
    (form form' : Form) (errs : List (String × String)) (ns : List Notification)
    (hprev : form.config.preventExternalInvalidation = true)
    (hvalid : formIsValidE form.registry form.config form.fields = Except.ok true)
    (hs : step form (Event.setValidationErrors errs) = Except.ok (form', ns)) :
    form'.isValidState = true := by
  simp only [step] at hs
  obtain ⟨hval, _, _, _, _, _⟩ := cascade_ok_spec _ _ _ _ _ hs
  dsimp only at hval
  unfold formIsValidE at hval hvalid
  cases hfa : fieldsAllValid form.registry (modelOf form.fields) form.fields with
  | error e => rw [hfa] at hvalid; cases hvalid
  | ok ok0 =>
    rw [hfa] at hvalid hval
    simp only [Except.ok.injEq] at hvalid hval
    have hok0 : ok0 = true := by
      have h2 := hvalid
      rw [Bool.and_eq_true] at h2
      exact h2.1
    rw [← hval]
    simp [hok0, hprev]

theorem claim4_witness :
    claim4Form.config.preventExternalInvalidation = true ∧
    formIsValidE claim4Form.registry claim4Form.config claim4Form.fields = Except.ok true ∧
    step claim4Form (Event.setValidationErrors [("foo", "bar")]) =
      Except.ok (claim4Form2, []) ∧
    claim4Form2.isValidState = true :=
  ⟨rfl, rfl, rfl,
    claim4_prevent_external_invalidation claim4Form claim4Form2 [("foo", "bar")] [] rfl rfl rfl⟩

/-- **C5**: `updateInputsWithError` with a non-empty error map and
`shouldInvalidate` true, on a form whose `preventExternalInvalidation` is
not configured, makes aggregate `isValid` false immediately; and aggregate
`isValid` is true only when every field's `externalError` is cleared and
its underlying validation passes. -/
theorem claim5_updateErrors_invalidates
    (form form' : Form) (k msg : String) (rest : List (String × String))
    (ns : List Notification)
    (_hprev : form.config.preventExternalInvalidation = false)
    (_hvalid : form.isValidState = true)
    (hs : step form (Event.updateErrors ((k, msg) :: rest) true) = Except.ok (form', ns)) :
    form'.isValidState = false ∧
    (∀ (reg : Registry) (cfg : FormConfig) (fields : List FieldRecord),
      formIsValidE reg cfg fields = Except.ok true →
      ∀ f ∈ fields, f.externalError = none ∧
        ∃ st, runValidation reg (modelOf fields) f = Except.ok st ∧ st.isValid = true) := by
  constructor
  · simp only [step] at hs
    cases hfind : ((k, msg) :: rest).find?
        (fun p => !(form.fields.any (fun f => f.name == p.1))) with
    | some p => rw [hfind] at hs; cases hs
    | none =>
      rw [hfind] at hs
      obtain ⟨hval, _, _, hfields, _, _⟩ := cascade_ok_spec _ _ _ _ _ hs
      have hiff := formIsValidE_ok_iff _ _ _ _ hval
      by_contra hne
      have htrue : form'.isValidState = true := by
        cases hb : form'.isValidState
        · exact absurd hb hne
        · rfl
      have hall := (hiff.mp htrue).1
      have hkmatch : form.fields.any (fun f => f.name == k) = true := by
        have hnot := List.find?_eq_none.mp hfind (k, msg) (List.mem_cons_self _ _)
        simpa using hnot
      obtain ⟨f0, hf0mem, hf0name⟩ := List.any_eq_true.mp hkmatch
      have hf0eq : f0.name = k := by simpa using hf0name
      have hlk : lookupEntry ((k, msg) :: rest) f0.name = some msg := by
        rw [hf0eq]
        simp [lookupEntry, List.find?_cons]
      have hmem2 : ({ f0 with externalError := some msg } : FieldRecord) ∈
          form.fields.map (fun f =>
            match lookupEntry ((k, msg) :: rest) f.name with
            | some m => { f with externalError := some m }
            | none => f) := by
        have h3 := List.mem_map_of_mem (fun f =>
          match lookupEntry ((k, msg) :: rest) f.name with
          | some m => { f with externalError := some m }
          | none => f) hf0mem
        dsimp only at h3
        rw [hlk] at h3
        exact h3
      obtain ⟨hnone, -⟩ := hall _ hmem2
      cases hnone
  · intro reg cfg fields hv f hf
    exact ((formIsValidE_ok_iff reg cfg fields true hv).mp rfl).1 f hf

theorem claim5_witness :
    claim5Form.config.preventExternalInvalidation = false ∧
    claim5Form.isValidState = true ∧
    step claim5Form (Event.updateErrors [("foo", "bar")] true) =
      Except.ok (claim5Form2, [Notification.onInvalid]) ∧
    (claim5Form2.isValidState = false ∧
      (∀ (reg : Registry) (cfg : FormConfig) (fields : List FieldRecord),
        formIsValidE reg cfg fields = Except.ok true →
        ∀ f ∈ fields, f.externalError = none ∧
          ∃ st, runValidation reg (modelOf fields) f = Except.ok st ∧ st.isValid = true)) :=
  ⟨rfl, rfl, rfl,
    claim5_updateErrors_invalidates claim5Form claim5Form2 "foo" "bar" [] [Notification.onInvalid]
      rfl rfl rfl⟩

/-- **C2**: `updateInputsWithValue` or `updateInputsWithError` called with
a map containing a name matching no registered field reports an explicit,
catchable addressing error to the caller rather than silently succeeding
or crashing. -/
theorem claim2_addressing_error
    (form : Form) (values : List (String × Value)) (errors : List (String × String))
    (validate invalidate : Bool) (kv ke : String)
    (hkv : kv ∈ values.map Prod.fst) (hnv : ∀ f ∈ form.fields, f.name ≠ kv)
    (hke : ke ∈ errors.map Prod.fst) (hne : ∀ f ∈ form.fields, f.name ≠ ke) :
    (∃ msg, step form (Event.updateValues values validate) = Except.error msg) ∧
    (∃ msg, step form (Event.updateErrors errors invalidate) = Except.error msg) := by
  constructor
  · simp only [step]
    cases hfind : values.find? (fun p => !(form.fields.any (fun f => f.name == p.1))) with
    | none =>
      exfalso
      obtain ⟨p, hpmem, hpk⟩ := List.mem_map.mp hkv
      have hnot := List.find?_eq_none.mp hfind p hpmem
      simp only [Bool.not_eq_eq_eq_not, Bool.not_true, Bool.not_eq_false] at hnot
      obtain ⟨f, hfmem, hfname⟩ := List.any_eq_true.mp hnot
      exact hnv f hfmem (by rw [← hpk]; exact eq_of_beq hfname)
    | some p => exact ⟨_, rfl⟩
  · simp only [step]
    cases hfind : errors.find? (fun p => !(form.fields.any (fun f => f.name == p.1))) with
    | none =>
      exfalso
      obtain ⟨p, hpmem, hpk⟩ := List.mem_map.mp hke
      have hnot := List.find?_eq_none.mp hfind p hpmem
      simp only [Bool.not_eq_eq_eq_not, Bool.not_true, Bool.not_eq_false] at hnot
      obtain ⟨f, hfmem, hfname⟩ := List.any_eq_true.mp hnot
      exact hne f hfmem (by rw [← hpk]; exact eq_of_beq hfname)
    | some p => exact ⟨_, rfl⟩

theorem claim2_witness :
    "missingField" ∈ ([("missingField", Value.num 1)].map Prod.fst) ∧
    (∀ f ∈ claim5Form.fields, f.name ≠ "missingField") ∧
    "bar" ∈ ([("bar", "bar")].map (Prod.fst (α := String) (β := String))) ∧
    (∀ f ∈ claim5Form.fields, f.name ≠ "bar") ∧
    ((∃ msg, step claim5Form (Event.updateValues [("missingField", Value.num 1)] true) =
        Except.error msg) ∧
      (∃ msg, step claim5Form (Event.updateErrors [("bar", "bar")] true) =
        Except.error msg)) := by
  refine ⟨by simp, ?_, by simp, ?_, ?_⟩
  · intro f hf
    rcases List.mem_singleton.mp hf with rfl
    decide
  · intro f hf
    rcases List.mem_singleton.mp hf with rfl
    decide
  · exact claim2_addressing_error claim5Form [("missingField", Value.num 1)] [("bar", "bar")]
      true true "missingField" "bar" (by simp)
      (by intro f hf; rcases List.mem_singleton.mp hf with rfl; decide)
      (by simp)
      (by intro f hf; rcases List.mem_singleton.mp hf with rfl; decide)

/-- **C10**: `updateInputsWithValue(valuesByName)` modifies only the Field
Records whose names appear as keys of the map; every other registered
Field Record is unchanged by the call. -/
theorem claim10_updateValues_frame
    (form form' : Form) (values : List (String × Value)) (validate : Bool)
    (ns : List Notification)
    (hs : step form (Event.updateValues values validate) = Except.ok (form', ns))
    (i : Nat) (hi : i < form.fields.length) (hi2 : i < form'.fields.length)
    (hname : (form.fields[i]).name ∉ values.map Prod.fst) :
    form'.fields[i] = form.fields[i] := by
  simp only [step] at hs
  cases hfind : values.find? (fun p => !(form.fields.any (fun f => f.name == p.1))) with
  | some p => rw [hfind] at hs; cases hs
  | none =>
    rw [hfind] at hs
    obtain ⟨_, _, _, hfields, _, _⟩ := cascade_ok_spec _ _ _ _ _ hs
    have hlookup := lookupEntry_eq_none_of_not_mem values (form.fields[i]).name hname
    simp only [hfields, List.getElem_map]
    rw [hlookup]

theorem claim10_witness :
    step claim10Form (Event.updateValues [("foo", Value.bool false)] true) =
      Except.ok (claim10Form2,
        [Notification.onChange
          (JValue.obj [("foo", JValue.prim (Value.bool false)),
                       ("bar", JValue.prim (Value.bool true))]) true]) ∧
    (1 : Nat) < claim10Form.fields.length ∧ (1 : Nat) < claim10Form2.fields.length ∧
    (claim10Form.fields[1]).name ∉ ([("foo", Value.bool false)].map Prod.fst) ∧
    claim10Form2.fields[1] = claim10Form.fields[1] := by
  refine ⟨rfl, by decide, by decide, by decide, ?_⟩
  exact claim10_updateValues_frame claim10Form claim10Form2 [("foo", Value.bool false)] true
    [Notification.onChange
      (JValue.obj [("foo", JValue.prim (Value.bool false)),
                   ("bar", JValue.prim (Value.bool true))]) true]
    rfl 1 (by decide) (by decide) (by decide)

/-- **C6**: `reset()` with no argument restores every field's value to its
pristine value, yielding `isPristine` true and the changed flag false;
`reset(seed)` sets each field's value to the seed's entry for its name when
present (including empty-string entries), else to its pristine value. -/
theorem claim6_reset
    (form f1 f2 : Form) (n1 n2 : List Notification) (seed : List (String × Value))
    (h1 : step form (Event.reset none) = Except.ok (f1, n1))
    (h2 : step form (Event.reset (some seed)) = Except.ok (f2, n2)) :
    (∀ f ∈ f1.fields, f.value = f.pristineValue) ∧
    isPristineForm f1 = true ∧ isChangedForm f1.fields = false ∧
    f2.fields.length = form.fields.length ∧
    (∀ (i : Nat) (hi : i < form.fields.length) (hi2 : i < f2.fields.length),
      (f2.fields[i]).value =
        (lookupEntry seed (form.fields[i]).name).getD ((form.fields[i]).pristineValue)) := by
  simp only [step] at h1 h2
  obtain ⟨_, _, _, hfields1, hsub1, _⟩ := cascade_ok_spec _ _ _ _ _ h1
  obtain ⟨_, _, _, hfields2, _, _⟩ := cascade_ok_spec _ _ _ _ _ h2
  dsimp only at hfields1 hsub1 hfields2
  have hvals : ∀ f ∈ f1.fields, f.value = f.pristineValue := by
    intro f hf
    rw [hfields1] at hf
    obtain ⟨g, hg, hge⟩ := List.mem_map.mp hf
    rw [← hge]
  have hch : isChangedForm f1.fields = false := (isChangedForm_eq_false_iff f1.fields).mpr hvals
  refine ⟨hvals, ?_, hch, ?_, ?_⟩
  · unfold isPristineForm
    rw [hch, hsub1]
    rfl
  · rw [hfields2, List.length_map]
  · intro i hi hi2
    simp only [hfields2, List.getElem_map]

theorem step_onChange_payload (form : Form) (e : Event) (form' : Form)
    (ns : List Notification) (hs : step form e = Except.ok (form', ns)) :
    ∀ m b, Notification.onChange m b ∈ ns →
      m = mappedModel form'.config (modelOf form'.fields) ∧
        b = isChangedForm form'.fields := by
  cases e with
  | mountField f =>
    simp only [step] at hs
    obtain ⟨-, hcfg, -, hfields, -, -⟩ := cascade_ok_spec _ _ _ _ _ hs
    obtain ⟨-, hpay⟩ := cascade_onChange_spec _ _ _ _ _ hs
    intro m b hm
    rw [hcfg, hfields]
    exact hpay m b hm
  | unmountField fid =>
    simp only [step] at hs
    obtain ⟨-, hcfg, -, hfields, -, -⟩ := cascade_ok_spec _ _ _ _ _ hs
    obtain ⟨-, hpay⟩ := cascade_onChange_spec _ _ _ _ _ hs
    intro m b hm
    rw [hcfg, hfields]
    exact hpay m b hm
  | changeValue fid v =>
    simp only [step] at hs
    obtain ⟨-, hcfg, -, hfields, -, -⟩ := cascade_ok_spec _ _ _ _ _ hs
    obtain ⟨-, hpay⟩ := cascade_onChange_spec _ _ _ _ _ hs
    intro m b hm
    rw [hcfg, hfields]
    exact hpay m b hm
  | reset seed =>
    simp only [step] at hs
    obtain ⟨-, hcfg, -, hfields, -, -⟩ := cascade_ok_spec _ _ _ _ _ hs
    obtain ⟨-, hpay⟩ := cascade_onChange_spec _ _ _ _ _ hs
    intro m b hm
    rw [hcfg, hfields]
    exact hpay m b hm
  | setValidationErrors errs =>
    simp only [step] at hs
    obtain ⟨-, hcfg, -, hfields, -, -⟩ := cascade_ok_spec _ _ _ _ _ hs
    obtain ⟨-, hpay⟩ := cascade_onChange_spec _ _ _ _ _ hs
    intro m b hm
    rw [hcfg, hfields]
    exact hpay m b hm
  | updateValues values hv =>
    simp only [step] at hs
    cases hfind : values.find? (fun p => !(form.fields.any (fun f => f.name == p.1))) with
    | some p => rw [hfind] at hs; cases hs
    | none =>
      rw [hfind] at hs
      obtain ⟨-, hcfg, -, hfields, -, -⟩ := cascade_ok_spec _ _ _ _ _ hs
      obtain ⟨-, hpay⟩ := cascade_onChange_spec _ _ _ _ _ hs
      intro m b hm
      rw [hcfg, hfields]
      exact hpay m b hm
  | updateErrors errors hv =>
    simp only [step] at hs
    cases hfind : errors.find? (fun p => !(form.fields.any (fun f => f.name == p.1))) with
    | some p => rw [hfind] at hs; cases hs
    | none =>
      rw [hfind] at hs
      obtain ⟨-, hcfg, -, hfields, -, -⟩ := cascade_ok_spec _ _ _ _ _ hs
      obtain ⟨-, hpay⟩ := cascade_onChange_spec _ _ _ _ _ hs
      intro m b hm
      rw [hcfg, hfields]
      exact hpay m b hm
  | submit =>
    simp only [step] at hs
    cases hc : cascade { form with isSubmitted := true } (modelOf form.fields)
        form.isValidState with
    | error e2 => rw [hc] at hs; cases hs
    | ok p =>
      obtain ⟨f2, ns2⟩ := p
      rw [hc] at hs
      simp only [Except.ok.injEq, Prod.mk.injEq] at hs
      obtain ⟨h1, h2⟩ := hs
      subst h1
      subst h2
      obtain ⟨-, hcfg, -, hfields, -, -⟩ := cascade_ok_spec _ _ _ _ _ hc
      obtain ⟨-, hpay⟩ := cascade_onChange_spec _ _ _ _ _ hc
      intro m b hm
      rcases List.mem_append.mp hm with hpre | hcas
      · by_cases hvst : form.isValidState = true
        · rw [if_pos hvst] at hpre
          simp at hpre
        · rw [if_neg hvst] at hpre
          simp at hpre
      · rw [hcfg, hfields]
        exact hpay m b hcas

theorem step_onChange_count (form : Form) (e : Event) (form' : Form)
    (ns : List Notification) (hs : step form e = Except.ok (form', ns)) :
    (ns.filter isOnChange).length =
      if modelOf form'.fields = modelOf form.fields then 0 else 1 := by
  cases e with
  | mountField f =>
    simp only [step] at hs
    obtain ⟨-, -, -, hfields, -, -⟩ := cascade_ok_spec _ _ _ _ _ hs
    obtain ⟨hcount, -⟩ := cascade_onChange_spec _ _ _ _ _ hs
    rw [hfields]
    exact hcount
  | unmountField fid =>
    simp only [step] at hs
    obtain ⟨-, -, -, hfields, -, -⟩ := cascade_ok_spec _ _ _ _ _ hs
    obtain ⟨hcount, -⟩ := cascade_onChange_spec _ _ _ _ _ hs
    rw [hfields]
    exact hcount
  | changeValue fid v =>
    simp only [step] at hs
    obtain ⟨-, -, -, hfields, -, -⟩ := cascade_ok_spec _ _ _ _ _ hs
    obtain ⟨hcount, -⟩ := cascade_onChange_spec _ _ _ _ _ hs
    rw [hfields]
    exact hcount
  | reset seed =>
    simp only [step] at hs
    obtain ⟨-, -, -, hfields, -, -⟩ := cascade_ok_spec _ _ _ _ _ hs
    obtain ⟨hcount, -⟩ := cascade_onChange_spec _ _ _ _ _ hs
    rw [hfields]
    exact hcount
  | setValidationErrors errs =>
    simp only [step] at hs
    obtain ⟨-, -, -, hfields, -, -⟩ := cascade_ok_spec _ _ _ _ _ hs
    obtain ⟨hcount, -⟩ := cascade_onChange_spec _ _ _ _ _ hs
    rw [hfields]
    exact hcount
  | updateValues values hv =>
    simp only [step] at hs
    cases hfind : values.find? (fun p => !(form.fields.any (fun f => f.name == p.1))) with
    | some p => rw [hfind] at hs; cases hs
    | none =>
      rw [hfind] at hs
      obtain ⟨-, -, -, hfields, -, -⟩ := cascade_ok_spec _ _ _ _ _ hs
      obtain ⟨hcount, -⟩ := cascade_onChange_spec _ _ _ _ _ hs
      rw [hfields]
      exact hcount
  | updateErrors errors hv =>
    simp only [step] at hs
    cases hfind : errors.find? (fun p => !(form.fields.any (fun f => f.name == p.1))) with
    | some p => rw [hfind] at hs; cases hs
    | none =>
      rw [hfind] at hs
      obtain ⟨-, -, -, hfields, -, -⟩ := cascade_ok_spec _ _ _ _ _ hs
      obtain ⟨hcount, -⟩ := cascade_onChange_spec _ _ _ _ _ hs
      rw [hfields]
      exact hcount
  | submit =>
    simp only [step] at hs
    cases hc : cascade { form with isSubmitted := true } (modelOf form.fields)
        form.isValidState with
    | error e2 => rw [hc] at hs; cases hs
    | ok p =>
      obtain ⟨f2, ns2⟩ := p
      rw [hc] at hs
      simp only [Except.ok.injEq, Prod.mk.injEq] at hs
      obtain ⟨h1, h2⟩ := hs
      subst h1
      subst h2
      obtain ⟨-, -, -, hfields, -, -⟩ := cascade_ok_spec _ _ _ _ _ hc
      obtain ⟨hcount, -⟩ := cascade_onChange_spec _ _ _ _ _ hc
      rw [List.filter_append, List.length_append]
      have hpre : (List.filter isOnChange
          (if form.isValidState = true then
            [Notification.onValidSubmit (mappedModel form.config (modelOf form.fields))]
          else
            [Notification.onInvalidSubmit (mappedModel form.config (modelOf form.fields))])).length = 0 := by
        by_cases hvst : form.isValidState = true
        · rw [if_pos hvst]; rfl
        · rw [if_neg hvst]; rfl
      rw [hpre, hfields]
      simpa using hcount

/-- **C3** (counterexample): on the settled cascade following a dynamic
mount of a field named `parent.child` with value `"test"`, `onChange` is
invoked with the dot-notation-transformed (nested) model, which differs
from the name-to-value mapping keeping dot-notation names as flat keys, so
the claim as stated fails at this input. -/
theorem claim3_counterexample :
    step claim3EmptyForm (Event.mountField claim3Field) =
      Except.ok (claim3Form, [Notification.onChange claim3Nested false]) ∧
    claim3Nested ≠ flatToJ (modelOf claim3Form.fields) := by
  refine ⟨rfl, ?_⟩
  intro h
  rw [show flatToJ (modelOf claim3Form.fields) =
      JValue.obj [("parent.child", JValue.prim (Value.str "test"))] from rfl] at h
  simp only [claim3Nested, JValue.obj.injEq, List.cons.injEq, Prod.mk.injEq] at h
  exact absurd h.1.1 (by decide)

/-- **C3** (amended): `onChange` is invoked with the mapped model (the flat
model transformed by dot-notation nesting, or by the configured `mapping`
when present) and the `isChanged` flag; it fires on exactly those settled
post-mount cascades where the flattened model differs from the previous
flattened model — in particular exactly once per single field value change
— and the initial form mount (with or without fields) invokes no
`onChange`. -/
theorem claim3_onChange_mapped_model
    (cfg : FormConfig) (reg : Registry) (fields0 : List FieldRecord)
    (mform : Form) (mns : List Notification)
    (form form' : Form) (e : Event) (ns : List Notification)
    (hm : mountForm cfg reg fields0 = Except.ok (mform, mns))
    (hs : step form e = Except.ok (form', ns)) :
    mns = [] ∧
    (ns.filter isOnChange).length =
      (if modelOf form'.fields = modelOf form.fields then 0 else 1) ∧
    (∀ m b, Notification.onChange m b ∈ ns →
      m = mappedModel form'.config (modelOf form'.fields) ∧
        b = isChangedForm form'.fields) := by
  refine ⟨?_, step_onChange_count form e form' ns hs, step_onChange_payload form e form' ns hs⟩
  unfold mountForm at hm
  cases hv : formIsValidE reg cfg fields0 with
  | error e2 => rw [hv] at hm; cases hm
  | ok v =>
    rw [hv] at hm
    simp only [Except.ok.injEq, Prod.mk.injEq] at hm
    exact hm.2.symm

theorem claim3_witness :
    mountForm emptyCfg [] [] = Except.ok (claim3EmptyForm, []) ∧
    step claim3Form (Event.changeValue 1 (Value.str "x")) =
      Except.ok (claim3Form2, [Notification.onChange claim3Nested2 true]) ∧
    (([] : List Notification) = [] ∧
      (([Notification.onChange claim3Nested2 true].filter isOnChange).length =
        (if modelOf claim3Form2.fields = modelOf claim3Form.fields then 0 else 1)) ∧
      (∀ m b, Notification.onChange m b ∈ [Notification.onChange claim3Nested2 true] →
        m = mappedModel claim3Form2.config (modelOf claim3Form2.fields) ∧
          b = isChangedForm claim3Form2.fields)) :=
  ⟨rfl, rfl,
    claim3_onChange_mapped_model emptyCfg [] [] claim3EmptyForm []
      claim3Form claim3Form2 (Event.changeValue 1 (Value.str "x"))
      [Notification.onChange claim3Nested2 true] rfl rfl⟩

/-- **C8**: changed-state is tracked by value equality against the
per-field pristine snapshot: `isChanged` is false exactly when every
field's value equals its pristine value, the flag passed to `onChange`
reflects the fields' changed state after the cascade, and reverting every
changed field's value back to its pristine value clears `isChanged`. -/
theorem claim8_changed_tracking
    (fields : List FieldRecord) (form form' : Form) (e : Event)
    (ns : List Notification) (hs : step form e = Except.ok (form', ns)) :
    (isChangedForm fields = false ↔ ∀ f ∈ fields, f.value = f.pristineValue) ∧
    (∀ m b, Notification.onChange m b ∈ ns → b = isChangedForm form'.fields) ∧
    (∀ (fid : Nat) (v : Value) (form2 : Form) (ns2 : List Notification),
      step form (Event.changeValue fid v) = Except.ok (form2, ns2) →
      (∀ f ∈ form.fields, f.id = fid → v = f.pristineValue) →
      (∀ f ∈ form.fields, f.id ≠ fid → f.value = f.pristineValue) →
      isChangedForm form2.fields = false) := by
  refine ⟨isChangedForm_eq_false_iff fields, ?_, ?_⟩
  · intro m b hm
    exact (step_onChange_payload form e form' ns hs m b hm).2
  · intro fid v form2 ns2 hs2 hrev hothers
    simp only [step] at hs2
    obtain ⟨-, -, -, hfields, -, -⟩ := cascade_ok_spec _ _ _ _ _ hs2
    rw [hfields]
    dsimp only
    apply (isChangedForm_eq_false_iff _).mpr
    intro f hf
    obtain ⟨g, hg, hge⟩ := List.mem_map.mp hf
    by_cases hid : g.id = fid
    · rw [← hge]
      simp only [hid, beq_self_eq_true, if_true]
      exact hrev g hg hid
    · rw [← hge]
      have hbe : (g.id == fid) = false := by
        simp only [beq_eq_false_iff_ne, ne_eq]
        exact hid
      simp only [hbe, Bool.false_eq_true, if_false]
      exact hothers g hg hid

theorem claim8_witness :
    step claim8Form (Event.changeValue 1 (Value.str "bar")) =
      Except.ok (claim8Form2,
        [Notification.onChange (JValue.obj [("one", JValue.prim (Value.str "bar"))]) true]) ∧
    ((isChangedForm claim8Form.fields = false ↔
        ∀ f ∈ claim8Form.fields, f.value = f.pristineValue) ∧
      (∀ m b, Notification.onChange m b ∈
          [Notification.onChange (JValue.obj [("one", JValue.prim (Value.str "bar"))]) true] →
        b = isChangedForm claim8Form2.fields) ∧
      (∀ (fid : Nat) (v : Value) (form2 : Form) (ns2 : List Notification),
        step claim8Form (Event.changeValue fid v) = Except.ok (form2, ns2) →
        (∀ f ∈ claim8Form.fields, f.id = fid → v = f.pristineValue) →
        (∀ f ∈ claim8Form.fields, f.id ≠ fid → f.value = f.pristineValue) →
        isChangedForm form2.fields = false)) :=
  ⟨rfl,
    claim8_changed_tracking claim8Form.fields claim8Form claim8Form2
      (Event.changeValue 1 (Value.str "bar"))
      [Notification.onChange (JValue.obj [("one", JValue.prim (Value.str "bar"))]) true] rfl⟩

theorem claim6_witness :
    step claim6Form (Event.reset none) =
      Except.ok (claim6Form2,
        [Notification.onChange (JValue.obj [("foo", JValue.prim (Value.bool true))]) false]) ∧
    step claim6Form (Event.reset (some [("foo", Value.str "")])) =
      Except.ok (claim6Form3,
        [Notification.onChange (JValue.obj [("foo", JValue.prim (Value.str ""))]) true]) ∧
    ((∀ f ∈ claim6Form2.fields, f.value = f.pristineValue) ∧
      isPristineForm claim6Form2 = true ∧ isChangedForm claim6Form2.fields = false ∧
      claim6Form3.fields.length = claim6Form.fields.length ∧
      (∀ (i : Nat) (_hi : i < claim6Form.fields.length) (_hi2 : i < claim6Form3.fields.length),
        (claim6Form3.fields[i]).value =
          (lookupEntry [("foo", Value.str "")] ((claim6Form.fields[i]).name)).getD
            ((claim6Form.fields[i]).pristineValue))) :=
  ⟨rfl, rfl,
    claim6_reset claim6Form claim6Form2 claim6Form3
      [Notification.onChange (JValue.obj [("foo", JValue.prim (Value.bool true))]) false]
      [Notification.onChange (JValue.obj [("foo", JValue.prim (Value.str ""))]) true]
      [("foo", Value.str "")] rfl rfl⟩

/-! ## Dot-free names and the nested transform -/

theorem splitNameAux_no_dot (l : List Char) :
    ∀ cur, (∀ c ∈ l, c ≠ '.') →
      splitNameAux l cur = [String.mk (cur.reverse ++ l)] := by
  induction l with
  | nil => intro cur _; simp [splitNameAux]
  | cons c rest ih =>
    intro cur h
    have hc : c ≠ '.' := h c (List.mem_cons_self _ _)
    simp only [splitNameAux, if_neg hc]
    rw [ih (c :: cur) (fun d hd => h d (List.mem_cons_of_mem _ hd))]
    simp

theorem splitName_dotless (s : String) (h : ∀ c ∈ s.data, c ≠ '.') :
    splitName s = [s] := by
  unfold splitName
  rw [splitNameAux_no_dot s.data [] h]
  cases s with
  | mk data => simp

theorem foldl_setNested_eq (flat : FlatModel)
    (hd : ∀ k ∈ flat.map Prod.fst, ∀ c ∈ String.data k, c ≠ '.') :
    ∀ acc, flat.foldl (fun a p => setNested a (splitName p.1) p.2) acc =
      flat.foldl (fun a p => setEntry a p.1 (JValue.prim p.2)) acc := by
  induction flat with
  | nil => intro acc; rfl
  | cons p rest ih =>
    intro acc
    simp only [List.foldl_cons]
    rw [splitName_dotless p.1 (hd p.1 (by simp))]
    exact ih (fun k hk => hd k (by simp [hk])) _

theorem buildNested_dotless (flat : FlatModel)
    (hd : ∀ k ∈ flat.map Prod.fst, ∀ c ∈ String.data k, c ≠ '.')
    (hn : (flat.map Prod.fst).Nodup) :
    buildNested flat = flatToJ flat := by
  unfold buildNested flatToJ
  rw [foldl_setNested_eq flat hd []]
  have hfold : flat.foldl (fun a p => setEntry a p.1 (JValue.prim p.2)) ([] : List (String × JValue)) =
      (flat.map (fun p => (p.1, JValue.prim p.2))).foldl (fun a q => setEntry a q.1 q.2) [] := by
    rw [List.foldl_map]
  rw [hfold]
  rw [foldl_setEntry_append (flat.map (fun p => (p.1, JValue.prim p.2))) []
    (by simpa [List.map_map, Function.comp] using hn) (by simp)]
  simp

theorem lookupEntry_map_prim (l : FlatModel) (k : String) :
    lookupEntry (l.map (fun p => (p.1, JValue.prim p.2))) k =
      (lookupEntry l k).map JValue.prim := by
  induction l with
  | nil => rfl
  | cons p rest ih =>
    by_cases h : (p.1 == k) = true
    · simp [lookupEntry, List.find?_cons, h]
    · have h2 : (p.1 == k) = false := by
        cases hb : (p.1 == k)
        · rfl
        · exact absurd hb h
      simp only [List.map_cons, lookupEntry, List.find?_cons, h2]
      exact ih

theorem map_upd_names (fields : List FieldRecord) (fid : Nat) (v : Value) :
    (fields.map (fun f => if f.id == fid then { f with value := v } else f)).map
      FieldRecord.name = fields.map FieldRecord.name := by
  rw [List.map_map]
  apply List.map_congr_left
  intro g hg
  by_cases h : (g.id == fid) = true
  · simp [Function.comp, h]
  · simp only [Function.comp, h, Bool.false_eq_true, if_false]

/-- **C9**: a field whose value is the boolean `false` is treated as having
a supplied value, not as "no value": the aggregate model maps its name to
`false`, the submit callbacks receive a model carrying `false` for that
name, and the same holds after the value is dynamically changed to
`false`. -/
theorem claim9_false_is_supplied
    (form : Form) (f : FieldRecord)
    (hn : (form.fields.map FieldRecord.name).Nodup)
    (hmem : f ∈ form.fields) :
    (f.value = Value.bool false →
      lookupEntry (modelOf form.fields) f.name = some (Value.bool false)) ∧
    (f.value = Value.bool false →
      (∀ g ∈ form.fields, ∀ c ∈ String.data (FieldRecord.name g), c ≠ '.') →
      form.config.mapping = none →
      ∃ entries, mappedModel form.config (modelOf form.fields) = JValue.obj entries ∧
        lookupEntry entries f.name = some (JValue.prim (Value.bool false)) ∧
        (∀ form' ns, step form Event.submit = Except.ok (form', ns) →
          (Notification.onValidSubmit (JValue.obj entries) ∈ ns ∨
            Notification.onInvalidSubmit (JValue.obj entries) ∈ ns))) ∧
    (∀ (form2 : Form) (ns2 : List Notification),
      step form (Event.changeValue f.id (Value.bool false)) = Except.ok (form2, ns2) →
      lookupEntry (modelOf form2.fields) f.name = some (Value.bool false)) := by
  have hflat : modelOf form.fields = form.fields.map (fun g => (g.name, g.value)) :=
    modelOf_of_nodup form.fields hn
  refine ⟨?_, ?_, ?_⟩
  · intro hv
    rw [hflat]
    have hl := lookup_pairs_of_mem form.fields f hn hmem
    rw [hv] at hl
    exact hl
  · intro hv hd hmap
    have hkeysn : ((modelOf form.fields).map Prod.fst).Nodup := by
      rw [hflat]
      simpa [List.map_map, Function.comp] using hn
    have hkeysd : ∀ k ∈ (modelOf form.fields).map Prod.fst,
        ∀ c ∈ String.data k, c ≠ '.' := by
      intro k hk
      rw [hflat, List.map_map] at hk
      obtain ⟨g, hg, hge⟩ := List.mem_map.mp hk
      intro c hc
      apply hd g hg c
      rw [show FieldRecord.name g = k from hge]
      exact hc
    have hmm : mappedModel form.config (modelOf form.fields) =
        JValue.obj ((modelOf form.fields).map (fun p => (p.1, JValue.prim p.2))) := by
      unfold mappedModel
      rw [hmap]
      rw [buildNested_dotless (modelOf form.fields) hkeysd hkeysn]
      rfl
    refine ⟨(modelOf form.fields).map (fun p => (p.1, JValue.prim p.2)), hmm, ?_, ?_⟩
    · rw [lookupEntry_map_prim]
      rw [hflat]
      have hl := lookup_pairs_of_mem form.fields f hn hmem
      rw [hv] at hl
      rw [hl]
      rfl
    · intro form' ns hs
      simp only [step] at hs
      cases hc : cascade { form with isSubmitted := true } (modelOf form.fields)
          form.isValidState with
      | error e2 => rw [hc] at hs; cases hs
      | ok p =>
        obtain ⟨f2, ns3⟩ := p
        rw [hc] at hs
        simp only [Except.ok.injEq, Prod.mk.injEq] at hs
        obtain ⟨h1, h2⟩ := hs
        subst h2
        by_cases hvst : form.isValidState = true
        · left
          rw [if_pos hvst]
          apply List.mem_append_left
          rw [← hmm]
          exact List.mem_singleton.mpr rfl
        · right
          rw [if_neg hvst]
          apply List.mem_append_left
          rw [← hmm]
          exact List.mem_singleton.mpr rfl
  · intro form2 ns2 hs2
    simp only [step] at hs2
    obtain ⟨-, -, -, hfields, -, -⟩ := cascade_ok_spec _ _ _ _ _ hs2
    dsimp only at hfields
    have hn2 : (form2.fields.map FieldRecord.name).Nodup := by
      rw [hfields, map_upd_names]
      exact hn
    have hflat2 : modelOf form2.fields = form2.fields.map (fun g => (g.name, g.value)) :=
      modelOf_of_nodup form2.fields hn2
    rw [hflat2]
    have hup : ({ f with value := Value.bool false } : FieldRecord) ∈ form2.fields := by
      rw [hfields]
      have h3 := List.mem_map_of_mem
        (fun g => if g.id == f.id then { g with value := Value.bool false } else g) hmem
      simpa using h3
    exact lookup_pairs_of_mem form2.fields { f with value := Value.bool false } hn2 hup

theorem claim9_witness :
    (claim9Form.fields.map FieldRecord.name).Nodup ∧
    claim9Field ∈ claim9Form.fields ∧
    ((claim9Field.value = Value.bool false →
        lookupEntry (modelOf claim9Form.fields) claim9Field.name = some (Value.bool false)) ∧
      (claim9Field.value = Value.bool false →
        (∀ g ∈ claim9Form.fields, ∀ c ∈ String.data (FieldRecord.name g), c ≠ '.') →
        claim9Form.config.mapping = none →
        ∃ entries,
          mappedModel claim9Form.config (modelOf claim9Form.fields) = JValue.obj entries ∧
          lookupEntry entries claim9Field.name = some (JValue.prim (Value.bool false)) ∧
          (∀ form' ns, step claim9Form Event.submit = Except.ok (form', ns) →
            (Notification.onValidSubmit (JValue.obj entries) ∈ ns ∨
              Notification.onInvalidSubmit (JValue.obj entries) ∈ ns))) ∧
      (∀ (form2 : Form) (ns2 : List Notification),
        step claim9Form (Event.changeValue claim9Field.id (Value.bool false)) =
          Except.ok (form2, ns2) →
        lookupEntry (modelOf form2.fields) claim9Field.name = some (Value.bool false))) :=
  ⟨by decide, List.mem_cons_self _ _,
    claim9_false_is_supplied claim9Form claim9Field (by decide) (List.mem_cons_self _ _)⟩

end Formsy
